import Mathlib

/-!
Verification of the template CLI (`src/main.rs`) and its template core.

The CLI layer (`parse_key_values`, `apply_template_values`, the `run`
command dispatch) is embedded directly from `src/main.rs`.  The template
core (`TronTemplate`, `TronRef`, `TronAssembler` from the `tron` crate) is
not part of the sources under `src/`; those components are modelled from
the specification, as marked on each definition.
-/

namespace Tron

/-- Error type of the core, following the spec taxonomy (§7) and the
variants named in `src/main.rs` (`tron::TronError::Parse`, IO errors from
`fs`, and the placeholder errors of `set`/`render`). -/
inductive TronError where
  | parse (msg : String)
  | io (msg : String)
  | unknownPlaceholder (name : String)
  | unresolvedPlaceholder (missing : List String)
  | execution (stderr : String)
  deriving DecidableEq, Repr

/-- `splitn(2, sep)` on a character list: split at the FIRST occurrence of
the separator, returning the part before it and the whole remainder after
it; `none` when the separator does not occur (Rust yields a single chunk,
so the second `parts.next()` is `None`). -/
def splitFirst (sep : Char) : List Char → Option (List Char × List Char)
  | [] => none
  | c :: rest =>
    if c = sep then some ([], rest)
    else
      match splitFirst sep rest with
      | some (k, v) => some (c :: k, v)
      | none => none

/-- The body of the `filter_map` closure in `parse_key_values`
(src/main.rs lines 81-87): `pair.splitn(2, '=')`, keeping the pair
`(key, value)` when both parts exist and dropping the string otherwise. -/
def splitKV (s : String) : Option (String × String) :=
  match splitFirst '=' s.data with
  | some (k, v) => some (String.mk k, String.mk v)
  | none => none

/-- Insert into an association list with HashMap semantics: an existing
key has its value overwritten, a new key is appended.  This models
`HashMap::insert` / `collect::<HashMap<_,_>>` handling of duplicates. -/
def insertKV : List (String × String) → String → String → List (String × String)
  | [], k, v => [(k, v)]
  | (k1, v1) :: rest, k, v =>
    if k = k1 then (k, v) :: rest else (k1, v1) :: insertKV rest k v

/-- `HashMap::get` on the association-list model. -/
def lookupKV : List (String × String) → String → Option String
  | [], _ => none
  | (k1, v) :: rest, k => if k = k1 then some v else lookupKV rest k

/-- Number of entries of the map having a given key. -/
def countKey (m : List (String × String)) (k : String) : Nat :=
  (m.filter (fun p => p.1 = k)).length

/-- `collect::<HashMap<_,_>>()` over a sequence of pairs: fold the pairs
in order into the map, later pairs overwriting earlier ones with the same
key. -/
def collectHM (l : List (String × String)) : List (String × String) :=
  l.foldl (fun m p => insertKV m p.1 p.2) []

/-- The intermediate pair sequence of `parse_key_values`: the
`filter_map` stage before collecting into the `HashMap`
(src/main.rs lines 80-87). -/
def pairsOf (pairs : List String) : List (String × String) :=
  pairs.filterMap splitKV

/-- `parse_key_values` (src/main.rs lines 79-89): split each input at the
first `=`, drop inputs without one, collect into a `HashMap`. -/
def parse_key_values (pairs : List String) : List (String × String) :=
  collectHM (pairsOf pairs)

/-- Value of the LAST pair in the sequence carrying the given key, if
any. -/
def lastVal : List (String × String) → String → Option String
  | [], _ => none
  | (k1, v) :: rest, k =>
    match lastVal rest k with
    | some w => some w
    | none => if k = k1 then some v else none

theorem splitFirst_eq_none_iff (sep : Char) (l : List Char) :
    splitFirst sep l = none ↔ sep ∉ l := by
  induction l with
  | nil => simp [splitFirst]
  | cons c rest ih =>
    by_cases hc : c = sep
    · subst hc
      simp [splitFirst]
    · simp only [splitFirst, if_neg hc, List.mem_cons]
      cases hs : splitFirst sep rest with
      | none =>
        simp only [hs, true_iff] at ih ⊢
        intro hor
        rcases hor with h1 | h2
        · exact hc h1.symm
        · exact ih h2
      | some kv =>
        simp only [hs] at ih ⊢
        constructor
        · intro h; exact absurd h (by simp)
        · intro h
          exact absurd (fun hmem => h (Or.inr hmem)) (by simpa using ih)

theorem splitFirst_eq_some_of_mem (sep : Char) (l : List Char) (h : sep ∈ l) :
    ∃ k v, splitFirst sep l = some (k, v) := by
  cases hs : splitFirst sep l with
  | none => exact absurd h ((splitFirst_eq_none_iff sep l).mp hs)
  | some kv => exact ⟨kv.1, kv.2, by simp [hs]⟩

theorem splitFirst_append (sep : Char) (k v : List Char) (h : sep ∉ k) :
    splitFirst sep (k ++ sep :: v) = some (k, v) := by
  induction k with
  | nil => simp [splitFirst]
  | cons c rest ih =>
    have hc : ¬ c = sep := fun hcs => h (hcs ▸ List.mem_cons_self c rest)
    have hrest : sep ∉ rest := fun hm => h (List.mem_cons_of_mem c hm)
    simp [splitFirst, if_neg hc, ih hrest]

theorem lookupKV_insertKV (m : List (String × String)) (k1 v1 k : String) :
    lookupKV (insertKV m k1 v1) k = if k = k1 then some v1 else lookupKV m k := by
  induction m with
  | nil =>
    by_cases hk : k = k1 <;> simp [insertKV, lookupKV, hk]
  | cons p rest ih =>
    obtain ⟨k2, v2⟩ := p
    by_cases h12 : k1 = k2
    · subst h12
      by_cases hk : k = k1 <;> simp [insertKV, lookupKV, hk]
    · by_cases hk : k = k1
      · subst hk
        simp [insertKV, if_neg h12, lookupKV, h12, ih]
      · have h21 : ¬ k2 = k1 := fun he => h12 he.symm
        by_cases hk2 : k = k2 <;>
          simp [insertKV, if_neg h12, lookupKV, hk, hk2, h21, ih]

theorem lookupKV_foldl_insert (l : List (String × String))
    (m : List (String × String)) (k : String) :
    lookupKV (l.foldl (fun m p => insertKV m p.1 p.2) m) k =
      match lastVal l k with
      | some w => some w
      | none => lookupKV m k := by
  induction l generalizing m with
  | nil => simp [lastVal]
  | cons p rest ih =>
    obtain ⟨k1, v1⟩ := p
    simp only [List.foldl_cons, ih, lastVal]
    cases lastVal rest k with
    | some w => rfl
    | none =>
      simp only [lookupKV_insertKV]
      by_cases hk : k = k1 <;> simp [hk]

theorem lookupKV_collectHM (l : List (String × String)) (k : String) :
    lookupKV (collectHM l) k =
      match lastVal l k with
      | some w => some w
      | none => none := by
  have h := lookupKV_foldl_insert l [] k
  simpa [collectHM, lookupKV] using h

theorem countKey_nil (k : String) : countKey [] k = 0 := rfl

theorem countKey_cons (k1 v : String) (rest : List (String × String)) (k : String) :
    countKey ((k1, v) :: rest) k = (if k1 = k then 1 else 0) + countKey rest k := by
  by_cases h : k1 = k <;> simp [countKey, List.filter_cons, h]
  omega

theorem countKey_insertKV (m : List (String × String)) (k1 v1 k : String) :
    countKey (insertKV m k1 v1) k =
      if k = k1 then max 1 (countKey m k) else countKey m k := by
  induction m with
  | nil =>
    by_cases hk : k = k1
    · subst hk
      simp [insertKV, countKey_cons, countKey_nil]
    · have h1k : ¬ k1 = k := fun he => hk he.symm
      simp [insertKV, countKey_cons, countKey_nil, hk, h1k]
  | cons p rest ih =>
    obtain ⟨k2, v2⟩ := p
    by_cases h12 : k1 = k2
    · subst h12
      by_cases hk : k = k1
      · subst hk
        simp [insertKV, countKey_cons]
      · have h1k : ¬ k1 = k := fun he => hk he.symm
        simp [insertKV, countKey_cons, hk, h1k]
    · simp only [insertKV, if_neg h12, countKey_cons, ih]
      by_cases hk : k = k1
      · subst hk
        have h2k : ¬ k2 = k := fun he => h12 he.symm
        simp [h2k]
      · simp [hk]

theorem countKey_collectHM_le (l : List (String × String)) (k : String) :
    countKey (collectHM l) k ≤ 1 := by
  suffices h : ∀ m, countKey m k ≤ 1 →
      countKey (l.foldl (fun m p => insertKV m p.1 p.2) m) k ≤ 1 by
    exact h [] (by simp [countKey_nil])
  induction l with
  | nil => intro m hm; simpa using hm
  | cons p rest ih =>
    intro m hm
    simp only [List.foldl_cons]
    refine ih _ ?_
    rw [countKey_insertKV]
    by_cases hk : k = p.1
    · subst hk
      simp only [if_pos rfl]
      exact Nat.max_le.mpr ⟨Nat.le_refl 1, hm⟩
    · rw [if_neg hk]
      exact hm

theorem countKey_pos_of_lookup (m : List (String × String)) (k v : String)
    (h : lookupKV m k = some v) : 1 ≤ countKey m k := by
  induction m with
  | nil => simp [lookupKV] at h
  | cons p rest ih =>
    obtain ⟨k1, v1⟩ := p
    rw [countKey_cons]
    by_cases hk : k = k1
    · simp [hk]
    · simp only [lookupKV, if_neg hk] at h
      have := ih h
      omega

theorem splitFirst_mem_of_eq_some (sep : Char) (l : List Char)
    (kv : List Char × List Char) (h : splitFirst sep l = some kv) : sep ∈ l := by
  by_contra hmem
  rw [(splitFirst_eq_none_iff sep l).mpr hmem] at h
  exact Option.noConfusion h

theorem splitKV_eq_none_iff (s : String) : splitKV s = none ↔ '=' ∉ s.data := by
  cases hs : splitFirst '=' s.data with
  | none =>
    simp only [splitKV, hs]
    simpa using (splitFirst_eq_none_iff '=' s.data).mp hs
  | some kv =>
    simp only [splitKV, hs]
    constructor
    · intro h; exact Option.noConfusion h
    · intro h; exact absurd (splitFirst_mem_of_eq_some '=' s.data kv hs) h

theorem splitKV_isSome_of_mem (s : String) (h : '=' ∈ s.data) :
    ∃ kv, splitKV s = some kv := by
  cases hs : splitKV s with
  | none => exact absurd ((splitKV_eq_none_iff s).mp hs) (by simpa using h)
  | some kv => exact ⟨kv, rfl⟩

theorem pairsOf_filter_eq (pairs : List String) :
    pairsOf pairs = pairsOf (pairs.filter (fun s => decide ('=' ∈ s.data))) := by
  induction pairs with
  | nil => rfl
  | cons s rest ih =>
    by_cases hs : '=' ∈ s.data
    · obtain ⟨kv, hkv⟩ := splitKV_isSome_of_mem s hs
      simp [pairsOf, List.filterMap_cons, List.filter_cons, hs, hkv] at ih ⊢
      exact ih
    · have hnone : splitKV s = none := (splitKV_eq_none_iff s).mpr hs
      simp [pairsOf, List.filterMap_cons, List.filter_cons, hs, hnone] at ih ⊢
      exact ih

theorem pairsOf_length (pairs : List String) :
    (pairsOf pairs).length = (pairs.filter (fun s => decide ('=' ∈ s.data))).length := by
  induction pairs with
  | nil => rfl
  | cons s rest ih =>
    by_cases hs : '=' ∈ s.data
    · obtain ⟨kv, hkv⟩ := splitKV_isSome_of_mem s hs
      simp [pairsOf, List.filterMap_cons, List.filter_cons, hs, hkv] at ih ⊢
      exact ih
    · have hnone : splitKV s = none := (splitKV_eq_none_iff s).mpr hs
      simp [pairsOf, List.filterMap_cons, List.filter_cons, hs, hnone] at ih ⊢
      exact ih

/-- Claim C4: `parse_key_values` silently drops every input string without
an `=` separator (such a string appears in no output pair and causes no
error — the function is total), and every string containing a separator
contributes exactly one key/value pair to the collected sequence, so the
core never receives a malformed pair from this path. -/
theorem parse_key_values_drops_separatorless (pairs : List String) :
    pairsOf pairs = pairsOf (pairs.filter (fun s => decide ('=' ∈ s.data))) ∧
    (pairsOf pairs).length = (pairs.filter (fun s => decide ('=' ∈ s.data))).length ∧
    parse_key_values pairs =
      parse_key_values (pairs.filter (fun s => decide ('=' ∈ s.data))) :=
  ⟨pairsOf_filter_eq pairs, pairsOf_length pairs, by
    simp only [parse_key_values, pairsOf_filter_eq pairs]⟩

/-- Claim C9: the key/value split of `parse_key_values` happens at the
FIRST `=` only: for an input whose characters are `k ++ = :: v` with no
`=` in `k`, the key is exactly `k` and the value is the entire remainder
`v`, which may itself contain `=`; the key may be empty. -/
theorem splitKV_first_separator (k v : List Char) (h : '=' ∉ k) :
    splitKV (String.mk (k ++ '=' :: v)) = some (String.mk k, String.mk v) := by
  simp [splitKV, splitFirst_append '=' k v h]

/-- Witness for C9 at concrete inputs: `"a=b=c"` splits into key `"a"`
and value `"b=c"`, and `"=v"` yields the empty key. -/
theorem splitKV_first_separator_witness :
    splitKV (String.mk (['a'] ++ '=' :: ['b', '=', 'c'])) =
      some (String.mk ['a'], String.mk ['b', '=', 'c']) ∧
    splitKV (String.mk ([] ++ '=' :: ['v'])) = some (String.mk [], String.mk ['v']) :=
  ⟨splitKV_first_separator ['a'] ['b', '=', 'c'] (by decide),
   splitKV_first_separator [] ['v'] (by decide)⟩

/-- Claim C10: when several well-formed pairs share a key, the map
returned by `parse_key_values` holds exactly one entry for that key,
carrying the value of the LAST such pair in input order. -/
theorem parse_key_values_last_wins (pairs : List String) (k v : String)
    (h : lastVal (pairsOf pairs) k = some v) :
    countKey (parse_key_values pairs) k = 1 ∧
    lookupKV (parse_key_values pairs) k = some v := by
  have hl : lookupKV (parse_key_values pairs) k = some v := by
    rw [parse_key_values, lookupKV_collectHM, h]
  refine ⟨?_, hl⟩
  have h1 := countKey_collectHM_le (pairsOf pairs) k
  have h2 := countKey_pos_of_lookup (parse_key_values pairs) k v hl
  rw [parse_key_values] at *
  omega

/-- Witness for C10: in `["a=1", "b=2", "a=3"]` the key `"a"` appears
twice; the map holds one entry for it with value `"3"`. -/
theorem parse_key_values_last_wins_witness :
    countKey (parse_key_values ["a=1", "b=2", "a=3"]) "a" = 1 ∧
    lookupKV (parse_key_values ["a=1", "b=2", "a=3"]) "a" = some "3" :=
  parse_key_values_last_wins ["a=1", "b=2", "a=3"] "a" "3" (by decide)

/-- Keep the first occurrence of each element, dropping later
duplicates, preserving order of first appearance. -/
def dedupFirst : List String → List String
  | [] => []
  | x :: xs => x :: (dedupFirst xs).filter (fun y => decide (y ≠ x))

theorem mem_dedupFirst (a : String) (l : List String) :
    a ∈ dedupFirst l ↔ a ∈ l := by
  induction l with
  | nil => simp [dedupFirst]
  | cons x xs ih =>
    by_cases hax : a = x
    · simp [dedupFirst, hax]
    · simp [dedupFirst, List.mem_filter, ih, hax]

/-- A parsed template source is a sequence of literal runs and
placeholder holes.  The delimiter grammar of `from_text` (§4.1, one fixed
`\x7b\x7b name \x7d\x7d` pair, forgiving parse) is abstracted into this
token sequence; malformed delimiter text is part of a literal token. -/
inductive Tok where
  | lit (s : String)
  | hole (name : String)
  deriving DecidableEq, Repr

/-- Modelled from the spec: `TronTemplate` of the `tron` crate is not
under `src/`.  Per §3 it owns the immutable parsed source and a
`bindings` map from placeholder name to value (unique keys). -/
structure TronTemplate where
  source : List Tok
  bindings : List (String × String)
  deriving DecidableEq, Repr

/-- Names of the holes of a token sequence, in order, with repeats. -/
def holeNames : List Tok → List String
  | [] => []
  | Tok.lit _ :: rest => holeNames rest
  | Tok.hole n :: rest => n :: holeNames rest

/-- Modelled from the spec (§3): the set of declared placeholder names
extracted from the source, order of first appearance preserved. -/
def TronTemplate.placeholders (t : TronTemplate) : List String :=
  dedupFirst (holeNames t.source)

/-- Modelled from the spec (§4.1): `set(name, value)` fails with
`UnknownPlaceholderError` when `name` was not discovered during parsing,
mutating nothing; otherwise it records the binding. -/
def TronTemplate.set (t : TronTemplate) (name value : String) :
    Except TronError TronTemplate :=
  if name ∈ t.placeholders then
    Except.ok { t with bindings := insertKV t.bindings name value }
  else Except.error (TronError.unknownPlaceholder name)

/-- Substitution of one token: a bound hole becomes its value; a declared
but unbound hole keeps its delimiter syntax literally (§4.1). -/
def renderTok (b : List (String × String)) : Tok → String
  | Tok.lit s => s
  | Tok.hole n =>
    match lookupKV b n with
    | some v => v
    | none => "\x7b\x7b" ++ n ++ "\x7d\x7d"

/-- Declared placeholders having no binding. -/
def TronTemplate.missing (t : TronTemplate) : List String :=
  t.placeholders.filter (fun p => (lookupKV t.bindings p).isNone)

/-- Concatenation of a list of strings, in order, with no separator. -/
def concatAll : List String → String
  | [] => ""
  | s :: rest => s ++ concatAll rest

/-- Modelled from the spec (§4.1, §7): `render()` substitutes every bound
name and fails with `UnresolvedPlaceholderError` reporting ALL missing
names together when any declared placeholder is unbound. -/
def TronTemplate.render (t : TronTemplate) : Except TronError String :=
  if t.missing = [] then
    Except.ok (concatAll (t.source.map (renderTok t.bindings)))
  else Except.error (TronError.unresolvedPlaceholder t.missing)

/-- `is_ok()` on a fallible result. -/
def exceptOk {α : Type} : Except TronError α → Bool
  | Except.ok _ => true
  | Except.error _ => false

theorem lookupKV_isSome_iff (m : List (String × String)) (k : String) :
    (lookupKV m k).isSome = true ↔ k ∈ m.map Prod.fst := by
  induction m with
  | nil => simp [lookupKV]
  | cons p rest ih =>
    obtain ⟨k1, v1⟩ := p
    by_cases hk : k = k1
    · simp [lookupKV, hk]
    · simp [lookupKV, hk, ih]

theorem missing_eq_nil_iff (t : TronTemplate) :
    t.missing = [] ↔ ∀ p ∈ t.placeholders, p ∈ t.bindings.map Prod.fst := by
  simp only [TronTemplate.missing, List.filter_eq_nil_iff]
  refine forall_congr' (fun p => imp_congr Iff.rfl ?_)
  rw [← lookupKV_isSome_iff]
  cases lookupKV t.bindings p <;> simp

/-- Claim C1: `render()` succeeds iff the bound names are a superset of
the declared placeholder set; on failure the
`UnresolvedPlaceholderError` reports exactly the declared placeholders
minus the bound names — all missing names, not just the first — and
every render failure is of that form. -/
theorem render_ok_iff_bindings_superset (t : TronTemplate) :
    (exceptOk t.render = true ↔ ∀ p ∈ t.placeholders, p ∈ t.bindings.map Prod.fst) ∧
    (∀ m, t.render = Except.error (TronError.unresolvedPlaceholder m) →
      ∀ p, (p ∈ m ↔ p ∈ t.placeholders ∧ p ∉ t.bindings.map Prod.fst)) ∧
    (∀ e, t.render = Except.error e → ∃ m, e = TronError.unresolvedPlaceholder m) := by
  refine ⟨?_, ?_, ?_⟩
  · rw [← missing_eq_nil_iff]
    unfold TronTemplate.render
    by_cases h : t.missing = [] <;> simp [h, exceptOk]
  · intro m hm p
    unfold TronTemplate.render at hm
    by_cases h : t.missing = []
    · rw [if_pos h] at hm
      simp at hm
    · rw [if_neg h] at hm
      have hm2 : t.missing = m := by
        injection hm with he
        injection he with hmiss
      subst hm2
      simp only [TronTemplate.missing, List.mem_filter, decide_eq_true_eq]
      constructor
      · rintro ⟨hp, hnone⟩
        refine ⟨hp, ?_⟩
        rw [← lookupKV_isSome_iff]
        cases hs : lookupKV t.bindings p with
        | none => simp
        | some v => rw [hs] at hnone; simp at hnone
      · rintro ⟨hp, hnb⟩
        refine ⟨hp, ?_⟩
        rw [← lookupKV_isSome_iff] at hnb
        cases hs : lookupKV t.bindings p with
        | none => simp
        | some v => rw [hs] at hnb; exact absurd (by simp) hnb
  · intro e he
    unfold TronTemplate.render at he
    by_cases h : t.missing = []
    · rw [if_pos h] at he
      exact Except.noConfusion he
    · rw [if_neg h] at he
      injection he with he2
      exact ⟨t.missing, he2.symm⟩

/-- Template with one declared, unbound placeholder. -/
def unboundT : TronTemplate := { source := [Tok.hole "x", Tok.lit "!"], bindings := [] }

/-- Witness for C1: the template `\x7b\x7bx\x7d\x7d!` with no bindings
fails to render, reporting exactly the missing name `x`. -/
theorem render_ok_iff_bindings_superset_witness :
    ("x" ∈ ["x"] ↔ "x" ∈ unboundT.placeholders ∧ "x" ∉ unboundT.bindings.map Prod.fst) ∧
    (∃ m, TronError.unresolvedPlaceholder ["x"] = TronError.unresolvedPlaceholder m) :=
  ⟨(render_ok_iff_bindings_superset unboundT).2.1 ["x"] rfl "x",
   (render_ok_iff_bindings_superset unboundT).2.2 (TronError.unresolvedPlaceholder ["x"]) rfl⟩

/-- `apply_template_values` (src/main.rs lines 92-97): fold `set` over
the key/value pairs, stopping at the first error.  The `&mut` template is
threaded explicitly; the `HashMap` iteration is modelled by an explicit
pair sequence in some iteration order.  The pair component of the result
is the template state after the loop (mutations made before a failing
`set` persist, as they do through the `&mut` reference). -/
def apply_template_values :
    TronTemplate → List (String × String) → TronTemplate × Except TronError Unit
  | t, [] => (t, Except.ok ())
  | t, (k, v) :: rest =>
    match t.set k v with
    | Except.ok t2 => apply_template_values t2 rest
    | Except.error e => (t, Except.error e)

/-- Template declaring exactly the placeholder `a`, nothing bound. -/
def tOnlyA : TronTemplate := { source := [Tok.hole "a"], bindings := [] }

/-- Counterexample to C2: applying the batch `[a=1, z=2]` to a template
declaring only `a` returns `UnknownPlaceholderError` for `z`, but the
binding `a=1` made before the failing key persists — the batch is NOT
applied atomically. -/
theorem apply_template_values_not_atomic :
    (apply_template_values tOnlyA [("a", "1"), ("z", "2")]).2 =
      Except.error (TronError.unknownPlaceholder "z") ∧
    (apply_template_values tOnlyA [("a", "1"), ("z", "2")]).1.bindings = [("a", "1")] ∧
    tOnlyA.bindings = [] ∧
    (apply_template_values tOnlyA [("a", "1"), ("z", "2")]).1.bindings ≠ tOnlyA.bindings := by
  refine ⟨rfl, rfl, rfl, ?_⟩
  decide

/-- Apply a batch of bindings unconditionally, in order. -/
def applyKnown (t : TronTemplate) (vals : List (String × String)) : TronTemplate :=
  vals.foldl (fun t kv => { t with bindings := insertKV t.bindings kv.1 kv.2 }) t

/-- Claim C2 as amended: when the batch contains an unknown key, the
operation returns `UnknownPlaceholderError` for the first unknown key in
application order; the failing `set` itself mutates nothing, but the
pairs applied before it remain bound — rejection is per-key, not atomic
over the batch. -/
theorem apply_template_values_first_unknown (t : TronTemplate)
    (pre rest : List (String × String)) (k v : String)
    (hpre : ∀ kv ∈ pre, kv.1 ∈ t.placeholders) (hk : k ∉ t.placeholders) :
    apply_template_values t (pre ++ (k, v) :: rest) =
      (applyKnown t pre, Except.error (TronError.unknownPlaceholder k)) := by
  induction pre generalizing t with
  | nil =>
    simp only [List.nil_append, apply_template_values, TronTemplate.set, if_neg hk]
    rfl
  | cons kv1 pre ih =>
    obtain ⟨k1, v1⟩ := kv1
    have hk1 : k1 ∈ t.placeholders := hpre (k1, v1) (List.mem_cons_self _ _)
    simp only [List.cons_append, apply_template_values, TronTemplate.set, if_pos hk1]
    exact ih { t with bindings := insertKV t.bindings k1 v1 }
      (fun kv hkv => hpre kv (List.mem_cons_of_mem _ hkv)) hk

/-- Witness for C2's amended claim at the counterexample input. -/
theorem apply_template_values_first_unknown_witness :
    apply_template_values tOnlyA [("a", "1"), ("z", "2")] =
      (applyKnown tOnlyA [("a", "1")], Except.error (TronError.unknownPlaceholder "z")) :=
  apply_template_values_first_unknown tOnlyA [("a", "1")] [] "z" "2"
    (by decide) (by decide)

/-- Modelled from the spec (§4.2): a Dependency Spec is a name/version
pair built from `name=version` text. -/
structure Dependency where
  name : String
  version : String
  deriving DecidableEq, Repr

/-- Modelled from the spec (§2, §3): `TronRef` (the Executable Reference)
exclusively owns one Template and an ordered sequence of Dependency
Specs, insertion order preserved, no deduplication. -/
structure TronRef where
  template : TronTemplate
  dependencies : List Dependency
  deriving DecidableEq, Repr

/-- `TronRef::new` wraps a template with no dependencies. -/
def TronRef.new (t : TronTemplate) : TronRef :=
  { template := t, dependencies := [] }

/-- Modelled from the spec (§4.3): `with_dependency(spec_text)` parses
the text at the first `=` into a Dependency Spec and appends it;
malformed text with no separator is silently ignored (documented quirk,
§9). -/
def TronRef.with_dependency (r : TronRef) (specText : String) : TronRef :=
  match splitKV specText with
  | some (n, v) => { r with dependencies := r.dependencies ++ [{ name := n, version := v }] }
  | none => r

/-- Claim C7: `with_dependency` appends the parsed Dependency Spec at
the END of the dependency sequence, never removes or reorders earlier
entries (no deduplication), never touches the template, and never
errors — spec text with no separator leaves the reference unchanged. -/
theorem with_dependency_appends (r : TronRef) (s : String) :
    (∀ n v, splitKV s = some (n, v) →
      r.with_dependency s =
        { r with dependencies := r.dependencies ++ [{ name := n, version := v }] }) ∧
    (splitKV s = none → r.with_dependency s = r) ∧
    (r.with_dependency s).dependencies.take r.dependencies.length = r.dependencies ∧
    (r.with_dependency s).template = r.template := by
  refine ⟨?_, ?_, ?_, ?_⟩
  · intro n v h
    simp [TronRef.with_dependency, h]
  · intro h
    simp [TronRef.with_dependency, h]
  · cases hs : splitKV s with
    | none => simp [TronRef.with_dependency, hs]
    | some kv =>
      obtain ⟨n, v⟩ := kv
      simp [TronRef.with_dependency, hs, List.take_left]
  · cases hs : splitKV s with
    | none => simp [TronRef.with_dependency, hs]
    | some kv =>
      obtain ⟨n, v⟩ := kv
      simp [TronRef.with_dependency, hs]

/-- A reference that already owns one dependency. -/
def depRef : TronRef :=
  { template := { source := [], bindings := [] },
    dependencies := [{ name := "serde", version := "1" }] }

/-- Witness for C7: appending `tokio=1` after `serde=1` keeps the
earlier entry first; the separator-less text `bad` changes nothing. -/
theorem with_dependency_appends_witness :
    depRef.with_dependency "tokio=1" =
      { depRef with dependencies := depRef.dependencies ++ [{ name := "tokio", version := "1" }] } ∧
    depRef.with_dependency "bad" = depRef :=
  ⟨(with_dependency_appends depRef "tokio=1").1 "tokio" "1" (by decide),
   (with_dependency_appends depRef "bad").2.1 (by decide)⟩

/-- Effects of one `execute()` call, in order. -/
inductive ExecEffect where
  | createArtifact (contents : String)
  | spawn (deps : List Dependency)
  | removeArtifact
  deriving DecidableEq, Repr

/-- Modelled from the spec (§4.3): `execute()` first renders the
template; a render failure short-circuits with that error, spawning no
process and creating no ephemeral artifact.  On success it materializes
the rendered text as an ephemeral artifact, invokes the external
toolchain (a parameter mapping rendered text and dependencies to
captured stdout or stderr), and removes the artifact on every exit
path.  The second component records the effects performed, in order. -/
def TronRef.execute (r : TronRef)
    (toolchain : String → List Dependency → Except String String) :
    Except TronError String × List ExecEffect :=
  match r.template.render with
  | Except.error e => (Except.error e, [])
  | Except.ok rendered =>
    match toolchain rendered r.dependencies with
    | Except.ok out =>
      (Except.ok out,
       [ExecEffect.createArtifact rendered, ExecEffect.spawn r.dependencies,
        ExecEffect.removeArtifact])
    | Except.error stderr =>
      (Except.error (TronError.execution stderr),
       [ExecEffect.createArtifact rendered, ExecEffect.spawn r.dependencies,
        ExecEffect.removeArtifact])

/-- Claim C8: when the template's `render()` fails, `execute()` returns
that render error and performs NO effect: no ephemeral artifact is
created and no process is spawned, whatever the toolchain would do. -/
theorem execute_render_failure_no_effects (r : TronRef)
    (toolchain : String → List Dependency → Except String String) (e : TronError)
    (h : r.template.render = Except.error e) :
    r.execute toolchain = (Except.error e, []) := by
  simp [TronRef.execute, h]

/-- Witness for C8: a reference over the unbound template fails with the
unresolved-placeholder error and an empty effect trace. -/
theorem execute_render_failure_no_effects_witness :
    TronRef.execute { template := { source := [Tok.hole "x"], bindings := [] }, dependencies := [] }
        (fun _ _ => Except.ok "out") =
      (Except.error (TronError.unresolvedPlaceholder ["x"]), []) :=
  execute_render_failure_no_effects
    { template := { source := [Tok.hole "x"], bindings := [] }, dependencies := [] }
    (fun _ _ => Except.ok "out") (TronError.unresolvedPlaceholder ["x"]) rfl

/-- Modelled from the spec (§3, §4.4): `TronAssembler` owns an ordered
sequence of entries; insertion order is render/concatenation order. -/
structure TronAssembler where
  entries : List TronRef
  deriving DecidableEq, Repr

/-- `TronAssembler::new()`: empty collection. -/
def TronAssembler.new : TronAssembler := { entries := [] }

/-- Modelled from the spec (§4.4): `add_template` appends to the ordered
collection, no deduplication. -/
def TronAssembler.add_template (a : TronAssembler) (r : TronRef) : TronAssembler :=
  { entries := a.entries ++ [r] }

/-- Modelled from the spec (§4.4): `set_global(name, value)` applies
`set` to every owned entry that declares `name` and leaves the others
untouched; it rejects the whole call with `UnknownPlaceholderError`
when NO owned entry declares `name`. -/
def TronAssembler.set_global (a : TronAssembler) (name value : String) :
    TronAssembler × Except TronError Unit :=
  if a.entries.any (fun r => decide (name ∈ r.template.placeholders)) then
    ({ entries := a.entries.map (fun r =>
        match r.template.set name value with
        | Except.ok t2 => { r with template := t2 }
        | Except.error _ => r) }, Except.ok ())
  else (a, Except.error (TronError.unknownPlaceholder name))

theorem forall₂_map_self {α : Type} (f : α → α) (l : List α)
    (P : α → α → Prop) (h : ∀ x ∈ l, P x (f x)) : List.Forall₂ P l (l.map f) := by
  induction l with
  | nil => exact List.Forall₂.nil
  | cons x xs ih =>
    exact List.Forall₂.cons (h x (List.mem_cons_self _ _))
      (ih (fun y hy => h y (List.mem_cons_of_mem _ hy)))

theorem forall₂_refl_of_mem {α : Type} (l : List α)
    (P : α → α → Prop) (h : ∀ x ∈ l, P x x) : List.Forall₂ P l l := by
  induction l with
  | nil => exact List.Forall₂.nil
  | cons x xs ih =>
    exact List.Forall₂.cons (h x (List.mem_cons_self _ _))
      (ih (fun y hy => h y (List.mem_cons_of_mem _ hy)))

/-- Claim C6: `set_global(name, value)` fails with
`UnknownPlaceholderError` iff NO owned entry declares `name`, leaving
the assembler unchanged in that case; otherwise it succeeds, binding
`name` in every entry that declares it while entries that do not
declare it are untouched. -/
theorem set_global_partitions (a : TronAssembler) (n v : String) :
    (exceptOk (a.set_global n v).2 = true ↔ ∃ r ∈ a.entries, n ∈ r.template.placeholders) ∧
    ((∀ r ∈ a.entries, n ∉ r.template.placeholders) →
      (a.set_global n v).2 = Except.error (TronError.unknownPlaceholder n) ∧
      (a.set_global n v).1 = a) ∧
    List.Forall₂ (fun old new =>
        (n ∈ old.template.placeholders →
          new = { old with template :=
            { old.template with bindings := insertKV old.template.bindings n v } }) ∧
        (n ∉ old.template.placeholders → new = old))
      a.entries (a.set_global n v).1.entries := by
  have hany : (a.entries.any (fun r => decide (n ∈ r.template.placeholders)) = true) ↔
      ∃ r ∈ a.entries, n ∈ r.template.placeholders := by
    simp [List.any_eq_true]
  refine ⟨?_, ?_, ?_⟩
  · unfold TronAssembler.set_global
    by_cases h : a.entries.any (fun r => decide (n ∈ r.template.placeholders)) = true
    · simp only [if_pos h, exceptOk]
      exact (iff_true_intro (hany.mp h)).symm.trans (by simp)
    · simp only [if_neg h, exceptOk]
      constructor
      · intro hfalse; exact absurd hfalse (by simp)
      · intro hex; exact absurd (hany.mpr hex) h
  · intro hnone
    have h : ¬ a.entries.any (fun r => decide (n ∈ r.template.placeholders)) = true := by
      intro hx
      obtain ⟨r, hr, hrn⟩ := hany.mp hx
      exact hnone r hr hrn
    unfold TronAssembler.set_global
    rw [if_neg h]
    exact ⟨rfl, rfl⟩
  · unfold TronAssembler.set_global
    by_cases h : a.entries.any (fun r => decide (n ∈ r.template.placeholders)) = true
    · rw [if_pos h]
      refine forall₂_map_self _ _ _ (fun r hr => ?_)
      constructor
      · intro hn
        simp [TronTemplate.set, if_pos hn]
      · intro hn
        simp [TronTemplate.set, if_neg hn]
    · rw [if_neg h]
      refine forall₂_refl_of_mem _ _ (fun r hr => ?_)
      refine ⟨fun hn => ?_, fun _ => rfl⟩
      exact absurd (hany.mpr ⟨r, hr, hn⟩) h

/-- Assembler owning one entry declaring `g` and one declaring `h`. -/
def twoAsm : TronAssembler :=
  { entries :=
      [{ template := { source := [Tok.hole "g"], bindings := [] }, dependencies := [] },
       { template := { source := [Tok.hole "h"], bindings := [] }, dependencies := [] }] }

/-- Witness for C6: on `twoAsm`, `set_global` of the undeclared name `q`
fails and changes nothing, and binding `g` updates only the entry that
declares it. -/
theorem set_global_partitions_witness :
    ((twoAsm.set_global "q" "1").2 = Except.error (TronError.unknownPlaceholder "q") ∧
      (twoAsm.set_global "q" "1").1 = twoAsm) ∧
    List.Forall₂ (fun old new =>
        ("g" ∈ old.template.placeholders →
          new = { old with template :=
            { old.template with bindings := insertKV old.template.bindings "g" "1" } }) ∧
        ("g" ∉ old.template.placeholders → new = old))
      twoAsm.entries (twoAsm.set_global "g" "1").1.entries :=
  ⟨(set_global_partitions twoAsm "q" "1").2.1 (by decide),
   (set_global_partitions twoAsm "g" "1").2.2⟩

/-- Modelled from the spec (§4.4): `render_all()` renders every entry in
insertion order and concatenates the results with no separator, failing
on the first entry whose render fails, with that entry's error. -/
def renderAllList : List TronRef → Except TronError String
  | [] => Except.ok ""
  | r :: rest =>
    match r.template.render with
    | Except.ok s =>
      match renderAllList rest with
      | Except.ok s2 => Except.ok (s ++ s2)
      | Except.error e => Except.error e
    | Except.error e => Except.error e

/-- `render_all()` over the assembler's owned entries. -/
def TronAssembler.render_all (a : TronAssembler) : Except TronError String :=
  renderAllList a.entries

/-- The template-loading loop of the Assemble command (src/main.rs lines
148-156): read each path, wrap the template in a `TronRef`, and
`add_template` it, in the order the paths were supplied; a failing read
aborts with its error.  The filesystem read is the `fetch` parameter. -/
def assembleTemplates (fetch : String → Except TronError TronTemplate) :
    List String → TronAssembler → Except TronError TronAssembler
  | [], a => Except.ok a
  | p :: ps, a =>
    match fetch p with
    | Except.ok t => assembleTemplates fetch ps (a.add_template (TronRef.new t))
    | Except.error e => Except.error e

theorem renderAllList_all_ok (rs : List TronRef)
    (h : ∀ r ∈ rs, exceptOk r.template.render = true) :
    renderAllList rs =
      Except.ok (concatAll (rs.map (fun r => r.template.render.toOption.getD ""))) := by
  induction rs with
  | nil => rfl
  | cons r rest ih =>
    have hr := h r (List.mem_cons_self _ _)
    cases hs : r.template.render with
    | error e => rw [hs] at hr; exact absurd hr (by simp [exceptOk])
    | ok s =>
      have hih := ih (fun r2 h2 => h r2 (List.mem_cons_of_mem _ h2))
      simp [renderAllList, hs, hih, concatAll, Except.toOption]

theorem renderAllList_first_error (pre : List TronRef) (r : TronRef)
    (rest : List TronRef) (e : TronError)
    (hpre : ∀ r2 ∈ pre, exceptOk r2.template.render = true)
    (hr : r.template.render = Except.error e) :
    renderAllList (pre ++ r :: rest) = Except.error e := by
  induction pre with
  | nil => simp [renderAllList, hr]
  | cons r2 pre ih =>
    have h2 := hpre r2 (List.mem_cons_self _ _)
    cases hs : r2.template.render with
    | error e2 => rw [hs] at h2; exact absurd h2 (by simp [exceptOk])
    | ok s =>
      have hih := ih (fun r3 h3 => hpre r3 (List.mem_cons_of_mem _ h3))
      simp [renderAllList, hs, hih]

theorem assembleTemplates_entries (fetch : String → Except TronError TronTemplate)
    (paths : List String) (a0 a2 : TronAssembler)
    (h : assembleTemplates fetch paths a0 = Except.ok a2) :
    a2.entries = a0.entries ++
      paths.filterMap (fun p => (fetch p).toOption.map TronRef.new) := by
  induction paths generalizing a0 with
  | nil =>
    simp only [assembleTemplates] at h
    injection h with h2
    simp [h2]
  | cons p ps ih =>
    cases hf : fetch p with
    | error e =>
      simp only [assembleTemplates, hf] at h
      exact Except.noConfusion h
    | ok t =>
      simp only [assembleTemplates, hf] at h
      rw [ih _ h]
      simp [TronAssembler.add_template, Except.toOption, hf, List.filterMap_cons]

/-- Claim C3: `render_all()` renders the owned entries in insertion
order and returns the concatenation of the rendered strings with no
separator; when an entry fails, `render_all` fails with the error of the
FIRST failing entry; and the Assemble command's loading loop adds the
templates in exactly the order the paths were supplied. -/
theorem render_all_order_and_first_error (a : TronAssembler) :
    ((∀ r ∈ a.entries, exceptOk r.template.render = true) →
      a.render_all =
        Except.ok (concatAll (a.entries.map (fun r => r.template.render.toOption.getD "")))) ∧
    (∀ pre r rest e, a.entries = pre ++ r :: rest →
      (∀ r2 ∈ pre, exceptOk r2.template.render = true) →
      r.template.render = Except.error e →
      a.render_all = Except.error e) ∧
    (∀ fetch paths a0 a2, assembleTemplates fetch paths a0 = Except.ok a2 →
      a2.entries = a0.entries ++
        paths.filterMap (fun p => (fetch p).toOption.map TronRef.new)) := by
  refine ⟨?_, ?_, ?_⟩
  · intro h
    exact renderAllList_all_ok a.entries h
  · intro pre r rest e hsplit hpre hr
    unfold TronAssembler.render_all
    rw [hsplit]
    exact renderAllList_first_error pre r rest e hpre hr
  · intro fetch paths a0 a2 h
    exact assembleTemplates_entries fetch paths a0 a2 h

/-- Witness for C3: entries rendering `"a"` and `"b"` concatenate to
`"ab"`; an unbound second entry makes `render_all` fail with its error;
two fetched paths are added in order. -/
theorem render_all_order_and_first_error_witness :
    TronAssembler.render_all
        ⟨[TronRef.new { source := [Tok.lit "a"], bindings := [] },
          TronRef.new { source := [Tok.lit "b"], bindings := [] }]⟩ = Except.ok "ab" ∧
    TronAssembler.render_all
        ⟨[TronRef.new { source := [Tok.lit "a"], bindings := [] },
          TronRef.new { source := [Tok.hole "x"], bindings := [] }]⟩ =
      Except.error (TronError.unresolvedPlaceholder ["x"]) ∧
    (⟨[TronRef.new { source := [Tok.lit "p"], bindings := [] },
       TronRef.new { source := [Tok.lit "q"], bindings := [] }]⟩ : TronAssembler).entries =
      TronAssembler.new.entries ++
        (["p", "q"].filterMap (fun p =>
          (Except.ok ({ source := [Tok.lit p], bindings := [] } : TronTemplate) :
            Except TronError TronTemplate).toOption.map TronRef.new)) := by
  refine ⟨?_, ?_, ?_⟩
  · have h := (render_all_order_and_first_error
      ⟨[TronRef.new { source := [Tok.lit "a"], bindings := [] },
        TronRef.new { source := [Tok.lit "b"], bindings := [] }]⟩).1 (by decide)
    rw [h]
    rfl
  · exact (render_all_order_and_first_error
      ⟨[TronRef.new { source := [Tok.lit "a"], bindings := [] },
        TronRef.new { source := [Tok.hole "x"], bindings := [] }]⟩).2.1
      [TronRef.new { source := [Tok.lit "a"], bindings := [] }]
      (TronRef.new { source := [Tok.hole "x"], bindings := [] }) []
      (TronError.unresolvedPlaceholder ["x"]) rfl (by decide) rfl
  · exact (render_all_order_and_first_error TronAssembler.new).2.2
      (fun p => Except.ok { source := [Tok.lit p], bindings := [] }) ["p", "q"]
      TronAssembler.new
      ⟨[TronRef.new { source := [Tok.lit "p"], bindings := [] },
        TronRef.new { source := [Tok.lit "q"], bindings := [] }]⟩ rfl

/-- The New command (src/main.rs lines 103-116): with both a literal and
a file, or neither, it returns `TronError::Parse` before any write;
with exactly one source it resolves the content (reading the file
through the `readFile` parameter, whose failure is an IO error) and
writes it.  The second component records the writes performed. -/
def newCommand (content : Option String) (file : Option String)
    (readFile : String → Except String String) : Except TronError Unit × List String :=
  match content, file with
  | some c, none => (Except.ok (), [c])
  | none, some f =>
    match readFile f with
    | Except.ok s => (Except.ok (), [s])
    | Except.error e => (Except.error (TronError.io e), [])
  | none, none =>
    (Except.error (TronError.parse "Either content or file must be provided"), [])
  | some _, some _ =>
    (Except.error (TronError.parse "Cannot provide both content and file"), [])

/-- Claim C5: the New command fails with a `ParseError` exactly when a
literal content and a file are both provided or neither is, and in
either failure case it returns before writing anything. -/
theorem new_command_parse_error_iff (content file : Option String)
    (readFile : String → Except String String) :
    ((∃ msg, (newCommand content file readFile).1 = Except.error (TronError.parse msg)) ↔
      content.isSome = file.isSome) ∧
    (content.isSome = file.isSome → (newCommand content file readFile).2 = []) := by
  cases content with
  | none =>
    cases file with
    | none => simp [newCommand]
    | some f => cases hr : readFile f <;> simp [newCommand, hr]
  | some c =>
    cases file with
    | none => simp [newCommand]
    | some f => simp [newCommand]

/-- Witness for C5: with both sources provided, nothing is written. -/
theorem new_command_parse_error_iff_witness :
    (newCommand (some "T") (some "f") (fun _ => Except.error "io")).2 = [] :=
  (new_command_parse_error_iff (some "T") (some "f") (fun _ => Except.error "io")).2 rfl

end Tron
